import Mathlib

/-!
Shallow embedding of the usage-data transformation and incremental-statistics
pipeline of the `dominion_energy` integration.

Conventions of the embedding:
* timestamps are integers (seconds since an epoch); calendar dates are integers
  (days since an epoch);
* metric values use `Rat` (exact arithmetic standing for the floats of the
  source; the conservation check `abs diff > 0.001` is translated verbatim);
* polars DataFrames become lists of structure values; the relational
  operations (`filter`, `group_by`/`agg`, `join`, `unpivot`, `sort`) are
  translated to the corresponding list operations;
* fallible operations (Python exceptions) return `Except`.
-/

namespace DominionEnergy

/-- A row of the joined long-format table handed to
`DominionDataProcessor.process_for_statistics`: columns `timestamp`,
`power_kw`, `energy_kwh`. -/
structure IntervalRow where
  timestamp : Int
  power_kw : Rat
  energy_kwh : Rat
deriving DecidableEq, Repr

/-- A row of the hourly aggregated table produced by
`process_for_statistics`. -/
structure HourlyBucket where
  timestamp : Int
  power_kw : Rat
  energy_kwh : Rat
deriving DecidableEq, Repr

/-- `pl.col("timestamp").dt.truncate("1h")`: floor the timestamp to the start
of its hour. -/
def hourStart (t : Int) : Int := 3600 * (Int.fdiv t 3600)

/-- Arithmetic mean used by `pl.mean`. -/
def ratMean (xs : List Rat) : Rat := xs.sum / (xs.length : Rat)

/-- The distinct hour keys of the table, ascending
(`group_by(timestamp).agg(...).sort(timestamp)`). -/
def hourKeys (rows : List IntervalRow) : List Int :=
  List.insertionSort (· ≤ ·) ((rows.map (fun r => hourStart r.timestamp)).dedup)

/-- The group of rows falling in the hour starting at `h`. -/
def hourGroup (rows : List IntervalRow) (h : Int) : List IntervalRow :=
  rows.filter (fun r => hourStart r.timestamp == h)

/-- The `group_by`/`agg` of `process_for_statistics`: one bucket per distinct
hour, `power_kw = mean`, `energy_kwh = sum`, sorted ascending by hour. -/
def hourlyAggregate (rows : List IntervalRow) : List HourlyBucket :=
  (hourKeys rows).map (fun h =>
    { timestamp := h
      power_kw := ratMean ((hourGroup rows h).map (fun r => r.power_kw))
      energy_kwh := ((hourGroup rows h).map (fun r => r.energy_kwh)).sum })

/-- Error kinds of the pipeline (§7 of the spec maps the Python exceptions to
these). -/
inductive ProcError where
  | consistencyError
deriving DecidableEq, Repr

/-- Total energy of a long-format table. -/
def totalEnergy (rows : List IntervalRow) : Rat :=
  (rows.map (fun r => r.energy_kwh)).sum

/-- Total energy of an hourly table. -/
def totalEnergyHourly (rows : List HourlyBucket) : Rat :=
  (rows.map (fun r => r.energy_kwh)).sum

/-- `DominionDataProcessor.process_for_statistics`: aggregate to hourly
buckets, then check the conservation invariant
(`abs(original_sum - hourly_sum) > 0.001` raises). -/
def process_for_statistics (data : List IntervalRow) :
    Except ProcError (List HourlyBucket) :=
  let hourly := hourlyAggregate data
  if |totalEnergy data - totalEnergyHourly hourly| > (1 : Rat) / 1000 then
    .error .consistencyError
  else
    .ok hourly

/-! ### Sum-partition lemmas for the hourly aggregation -/

lemma sum_map_ite_of_nodup {κ : Type} [DecidableEq κ] (ks : List κ) (k : κ)
    (v : Rat) (hnd : ks.Nodup) (hk : k ∈ ks) :
    (ks.map (fun x => if k = x then v else 0)).sum = v := by
  induction ks with
  | nil => cases hk
  | cons a t ih =>
    rcases List.mem_cons.mp hk with h | h
    · subst h
      have hzero : (t.map (fun x => if k = x then v else 0)).sum = 0 := by
        apply List.sum_eq_zero
        intro x hx
        rcases List.mem_map.mp hx with ⟨y, hy, hxy⟩
        have : k ≠ y := fun hkey => (List.nodup_cons.mp hnd).1 (hkey ▸ hy)
        simp [← hxy, this]
      simp [hzero]
    · have hne : k ≠ a := by
        intro hka
        exact (List.nodup_cons.mp hnd).1 (hka ▸ h)
      have := ih (List.nodup_cons.mp hnd).2 h
      simp [hne, this]

lemma sum_map_add' {α : Type} (l : List α) (f g : α → Rat) :
    (l.map (fun x => f x + g x)).sum = (l.map f).sum + (l.map g).sum := by
  induction l with
  | nil => simp
  | cons a t ih => simp [ih]; ring

/-- Summing group sums over a duplicate-free list of keys covering all rows
recovers the total sum. -/
lemma partition_sum {α κ : Type} [DecidableEq κ] (key : α → κ) (f : α → Rat)
    (ks : List κ) (hnd : ks.Nodup) :
    ∀ rows : List α, (∀ r ∈ rows, key r ∈ ks) →
      (ks.map (fun k => ((rows.filter (fun r => key r == k)).map f).sum)).sum
        = (rows.map f).sum := by
  intro rows
  induction rows with
  | nil => simp
  | cons r rows ih =>
    intro hcov
    have hr : key r ∈ ks := hcov r (List.mem_cons_self r rows)
    have hcov' : ∀ x ∈ rows, key x ∈ ks := fun x hx =>
      hcov x (List.mem_cons_of_mem r hx)
    have hsplit : ∀ k : κ,
        (((r :: rows).filter (fun x => key x == k)).map f).sum
          = (if key r = k then f r else 0)
            + ((rows.filter (fun x => key x == k)).map f).sum := by
      intro k
      by_cases hk : key r = k
      · simp [List.filter_cons, hk]
      · simp [List.filter_cons, hk]
    calc (ks.map (fun k => (((r :: rows).filter (fun x => key x == k)).map f).sum)).sum
        = (ks.map (fun k => (if key r = k then f r else 0)
            + ((rows.filter (fun x => key x == k)).map f).sum)).sum := by
          congr 1
          exact List.map_congr_left (fun k _ => hsplit k)
      _ = (ks.map (fun k => if key r = k then f r else 0)).sum
            + (ks.map (fun k => ((rows.filter (fun x => key x == k)).map f).sum)).sum :=
          sum_map_add' ks _ _
      _ = f r + (rows.map f).sum := by
          rw [sum_map_ite_of_nodup ks (key r) (f r) hnd hr, ih hcov']
      _ = ((r :: rows).map f).sum := by simp

lemma hourKeys_perm (rows : List IntervalRow) :
    List.Perm (hourKeys rows) ((rows.map (fun r => hourStart r.timestamp)).dedup) :=
  List.perm_insertionSort (· ≤ ·) _

lemma hourKeys_nodup (rows : List IntervalRow) : (hourKeys rows).Nodup :=
  ((rows.map (fun r => hourStart r.timestamp)).nodup_dedup).perm
    (hourKeys_perm rows).symm

lemma mem_hourKeys {rows : List IntervalRow} {r : IntervalRow} (hr : r ∈ rows) :
    hourStart r.timestamp ∈ hourKeys rows := by
  have : hourStart r.timestamp ∈ (rows.map (fun r => hourStart r.timestamp)).dedup :=
    List.mem_dedup.mpr (List.mem_map.mpr ⟨r, hr, rfl⟩)
  exact ((List.perm_insertionSort (· ≤ ·) _).mem_iff).mpr this

/-- Hourly aggregation preserves the total energy exactly (in exact
arithmetic). -/
lemma totalEnergy_hourlyAggregate (rows : List IntervalRow) :
    totalEnergyHourly (hourlyAggregate rows) = totalEnergy rows := by
  unfold totalEnergyHourly hourlyAggregate totalEnergy
  rw [List.map_map]
  have : ((hourKeys rows).map
      ((fun b : HourlyBucket => b.energy_kwh) ∘ fun h =>
        { timestamp := h
          power_kw := ratMean ((hourGroup rows h).map (fun r => r.power_kw))
          energy_kwh := ((hourGroup rows h).map (fun r => r.energy_kwh)).sum }))
      = ((hourKeys rows).map (fun h =>
          ((rows.filter (fun r => hourStart r.timestamp == h)).map
            (fun r => r.energy_kwh)).sum)) := by
    simp [Function.comp, hourGroup]
  rw [this]
  exact partition_sum (fun r => hourStart r.timestamp) (fun r => r.energy_kwh)
    (hourKeys rows) (hourKeys_nodup rows) rows (fun r hr => mem_hourKeys hr)

/-- C1: for every joined interval table, hourly aggregation preserves total
energy — in the exact-arithmetic embedding the totals coincide, hence are
within the 0.001 tolerance, the operation succeeds with the aggregated
buckets, and it fails with a `ConsistencyError` exactly when the difference
exceeds 0.001 (which never happens). -/
theorem process_for_statistics_conservation (data : List IntervalRow) :
    process_for_statistics data = .ok (hourlyAggregate data) ∧
    totalEnergyHourly (hourlyAggregate data) = totalEnergy data ∧
    (process_for_statistics data = .error .consistencyError ↔
      |totalEnergy data - totalEnergyHourly (hourlyAggregate data)| > (1 : Rat) / 1000) := by
  have hcons := totalEnergy_hourlyAggregate data
  have hdiff : |totalEnergy data - totalEnergyHourly (hourlyAggregate data)| = 0 := by
    rw [hcons]; simp
  have hno : ¬ (|totalEnergy data - totalEnergyHourly (hourlyAggregate data)| > (1 : Rat) / 1000) := by
    rw [hdiff]; norm_num
  refine ⟨?_, hcons, ?_⟩
  · unfold process_for_statistics
    simp only [hno, if_false]
  · constructor
    · intro herr
      exfalso
      unfold process_for_statistics at herr
      by_cases hgt : |totalEnergy data - totalEnergyHourly (hourlyAggregate data)| > (1 : Rat) / 1000
      · exact hno hgt
      · simp only [hgt, if_false] at herr
        cases herr
    · intro hgt
      exact absurd hgt hno

/-! ### C8: structure of the hourly aggregation -/

lemma beq_filter_eq_decide_filter (rows : List IntervalRow) (k : Int) :
    rows.filter (fun r => hourStart r.timestamp == k)
      = rows.filter (fun r => decide (hourStart r.timestamp = k)) := by
  apply List.filter_congr
  intro r _
  by_cases h : hourStart r.timestamp = k <;> simp [h]

lemma hourKeys_sorted (rows : List IntervalRow) :
    List.Sorted (· ≤ ·) (hourKeys rows) :=
  List.sorted_insertionSort (· ≤ ·) _

/-- C8: the hourly aggregator buckets rows by the hour floor of their
timestamp: the bucket keys are exactly the distinct floored timestamps, the
output is strictly ascending in `hour_start`, and each bucket holds the mean
power and the summed energy of the rows whose floored timestamp equals its
key. -/
theorem hourly_aggregator_groups_by_floor (rows : List IntervalRow) :
    List.Pairwise (fun a b : HourlyBucket => a.timestamp < b.timestamp)
      (hourlyAggregate rows) ∧
    List.Perm ((hourlyAggregate rows).map (fun b => b.timestamp))
      ((rows.map (fun r => hourStart r.timestamp)).dedup) ∧
    ∀ b ∈ hourlyAggregate rows,
      b.power_kw = ratMean
        ((rows.filter (fun r => decide (hourStart r.timestamp = b.timestamp))).map
          (fun r => r.power_kw)) ∧
      b.energy_kwh =
        ((rows.filter (fun r => decide (hourStart r.timestamp = b.timestamp))).map
          (fun r => r.energy_kwh)).sum := by
  refine ⟨?_, ?_, ?_⟩
  · have hlt : List.Pairwise (· < ·) (hourKeys rows) := by
      have hand := (hourKeys_sorted rows).and (hourKeys_nodup rows)
      exact hand.imp (fun hab => lt_of_le_of_ne hab.1 hab.2)
    unfold hourlyAggregate
    exact (List.pairwise_map).mpr hlt
  · unfold hourlyAggregate
    rw [List.map_map]
    have : ((fun b : HourlyBucket => b.timestamp) ∘ fun h =>
        ({ timestamp := h
           power_kw := ratMean ((hourGroup rows h).map (fun r => r.power_kw))
           energy_kwh := ((hourGroup rows h).map (fun r => r.energy_kwh)).sum }
          : HourlyBucket)) = id := by
      funext h; rfl
    rw [this, List.map_id]
    exact hourKeys_perm rows
  · intro b hb
    unfold hourlyAggregate at hb
    rcases List.mem_map.mp hb with ⟨h, _, hbk⟩
    have hts : b.timestamp = h := by rw [← hbk]
    subst hbk
    constructor
    · simp only [hourGroup]
      rw [← hts, beq_filter_eq_decide_filter]
    · simp only [hourGroup]
      rw [← hts, beq_filter_eq_decide_filter]

/-- Concrete instantiation of `hourly_aggregator_groups_by_floor`: two
half-hour rows in the same hour yield one bucket with mean power 3 and
summed energy 2. -/
theorem hourly_aggregator_groups_by_floor_witness :
    (3 : Rat) = ratMean
      ((([⟨0, 2, 1⟩, ⟨1800, 4, 1⟩] : List IntervalRow).filter
        (fun r => decide (hourStart r.timestamp = 0))).map (fun r => r.power_kw)) ∧
    (2 : Rat) =
      ((([⟨0, 2, 1⟩, ⟨1800, 4, 1⟩] : List IntervalRow).filter
        (fun r => decide (hourStart r.timestamp = 0))).map (fun r => r.energy_kwh)).sum := by
  have hmem : (⟨0, 3, 2⟩ : HourlyBucket) ∈ hourlyAggregate [⟨0, 2, 1⟩, ⟨1800, 4, 1⟩] := by
    have heval : hourlyAggregate [⟨0, 2, 1⟩, ⟨1800, 4, 1⟩] = [⟨0, 3, 2⟩] := by
      simp [hourlyAggregate, hourKeys, hourGroup, ratMean, hourStart,
        List.insertionSort, List.dedup, Int.fdiv]
      norm_num
    rw [heval]
    exact List.mem_singleton.mpr rfl
  have h := (hourly_aggregator_groups_by_floor [⟨0, 2, 1⟩, ⟨1800, 4, 1⟩]).2.2
    ⟨0, 3, 2⟩ hmem
  exact ⟨h.1, h.2⟩

/-! ### The incremental statistics merger
(`DominionEnergyUpdateCoordinator._insert_statistics`)

The external store is a list of persisted statistic points sorted ascending by
`start`; `get_last_statistics` returns its last element, and
`statistics_during_period(correction_start, None)` returns the points whose
`start` is at or after `correction_start`.  The Python code computes
`base_sum` with a guarded lookup, but then unconditionally evaluates
`stats_before_correction[statistic_id][0]` as an argument of `LOGGER.debug`,
which raises `KeyError` whenever the window query returned no rows; that
eager access is modelled by the `.error .keyError` branch. -/

/-- A point of the externally persisted cumulative series. -/
structure PersistedPoint where
  start : Int
  state : Rat
  sum : Rat
deriving DecidableEq, Repr

/-- A `StatisticData` record emitted by the merger. -/
structure StatisticData where
  start : Int
  state : Rat
  sum : Rat
deriving DecidableEq, Repr

/-- Failure of the merger run (the `KeyError` raised by the eager
`LOGGER.debug` argument when the window query returns nothing). -/
inductive MergeError where
  | keyError
deriving DecidableEq, Repr

/-- `correction_start = max(start_time, thirty_days_ago)` with
`thirty_days_ago = now().floor('day') - 30 days`. -/
def correctionStart (last : PersistedPoint) (nowFloorDay : Int) : Int :=
  max last.start (nowFloorDay - 30 * 86400)

/-- `statistics_during_period(correction_start, None)`: the persisted points
at or after `cs`. -/
def statsWindow (store : List PersistedPoint) (cs : Int) : List PersistedPoint :=
  store.filter (fun p => decide (cs ≤ p.start))

/-- `base_sum`: the `sum` of the last point of the window query, `0.0` when
the query returned nothing. -/
def windowBaseSum (store : List PersistedPoint) (cs : Int) : Rat :=
  (((statsWindow store cs).getLast?).map (fun p => p.sum)).getD 0

/-- The baseline the emitted cumulative sums are anchored to: `0.0` on a
first run, otherwise the window base sum. -/
def mergeBaseSum (store : List PersistedPoint) (nowFloorDay : Int) : Rat :=
  match store.getLast? with
  | none => 0
  | some last => windowBaseSum store (correctionStart last nowFloorDay)

/-- `(pl.col("energy_kwh").cum_sum() + base_sum)` followed by the row-wise
construction of `StatisticData(start=timestamp, state=energy_kwh,
sum=cum_sum)`. -/
def cumulate (base : Rat) : List HourlyBucket → List StatisticData
  | [] => []
  | b :: rest =>
      ⟨b.timestamp, b.energy_kwh, base + b.energy_kwh⟩ ::
        cumulate (base + b.energy_kwh) rest

/-- `usage_data = hourly_df.filter(pl.col("timestamp") > pl.lit(correction_start))`:
the new hourly buckets strictly after the correction start. -/
def keptBuckets (last : PersistedPoint) (nowFloorDay : Int)
    (hourly : List HourlyBucket) : List HourlyBucket :=
  hourly.filter (fun b => decide (correctionStart last nowFloorDay < b.timestamp))

/-- `DominionEnergyUpdateCoordinator._insert_statistics`, given the already
aggregated hourly table.  Returns the list of points passed to
`async_add_external_statistics` (empty when the height check returns early),
or the error raised before anything is emitted. -/
def insert_statistics (store : List PersistedPoint) (nowFloorDay : Int)
    (hourly : List HourlyBucket) : Except MergeError (List StatisticData) :=
  match store.getLast? with
  | none =>
      if hourly.isEmpty then .ok [] else .ok (cumulate 0 hourly)
  | some last =>
      let cs := correctionStart last nowFloorDay
      if (statsWindow store cs).isEmpty then
        .error .keyError
      else
        let usage := keptBuckets last nowFloorDay hourly
        if usage.isEmpty then .ok [] else .ok (cumulate (windowBaseSum store cs) usage)

/-! #### Structure of `cumulate` -/

lemma cumulate_length (base : Rat) (l : List HourlyBucket) :
    (cumulate base l).length = l.length := by
  induction l generalizing base with
  | nil => rfl
  | cons b rest ih => simp [cumulate, ih]

lemma cumulate_get (base : Rat) (l : List HourlyBucket) :
    ∀ (i : Nat) (hi : i < l.length) (hi2 : i < (cumulate base l).length),
      (cumulate base l).get ⟨i, hi2⟩ =
        ⟨(l.get ⟨i, hi⟩).timestamp, (l.get ⟨i, hi⟩).energy_kwh,
          base + ((l.take (i + 1)).map (fun b => b.energy_kwh)).sum⟩ := by
  induction l generalizing base with
  | nil => intro i hi; cases hi
  | cons b rest ih =>
    intro i hi hi2
    cases i with
    | zero => simp [cumulate]
    | succ n =>
      have hn : n < rest.length := Nat.lt_of_succ_lt_succ hi
      have hn2 : n < (cumulate (base + b.energy_kwh) rest).length := by
        rw [cumulate_length]; exact hn
      have := ih (base + b.energy_kwh) n hn hn2
      simp only [cumulate, List.get_cons_succ, this, List.take_succ_cons,
        List.map_cons, List.sum_cons]
      rw [add_assoc]

lemma cumulate_sum_zero (base : Rat) (l : List HourlyBucket)
    (h : 0 < (cumulate base l).length) :
    ((cumulate base l).get ⟨0, h⟩).sum =
      base + ((cumulate base l).get ⟨0, h⟩).state := by
  cases l with
  | nil => cases h
  | cons b rest => simp [cumulate]

lemma cumulate_sum_recurrence (base : Rat) (l : List HourlyBucket) :
    ∀ (i : Nat) (h1 : i + 1 < (cumulate base l).length)
      (h0 : i < (cumulate base l).length),
      ((cumulate base l).get ⟨i + 1, h1⟩).sum =
        ((cumulate base l).get ⟨i, h0⟩).sum +
          ((cumulate base l).get ⟨i + 1, h1⟩).state := by
  induction l generalizing base with
  | nil => intro i h1; cases h1
  | cons b rest ih =>
    intro i h1 h0
    cases i with
    | zero =>
      cases rest with
      | nil => simp [cumulate] at h1
      | cons c rest2 => simp [cumulate]
    | succ n =>
      have h1r : n + 1 < (cumulate (base + b.energy_kwh) rest).length := by
        simpa [cumulate] using h1
      have h0r : n < (cumulate (base + b.energy_kwh) rest).length := by
        simpa [cumulate] using h0
      have := ih (base + b.energy_kwh) n h1r h0r
      simpa [cumulate] using this

/-- On every successful run the emitted list is a cumulative sequence over
some bucket list, anchored at the merge baseline. -/
lemma insert_statistics_ok_shape (store : List PersistedPoint)
    (nowFloorDay : Int) (hourly : List HourlyBucket) (pts : List StatisticData)
    (hok : insert_statistics store nowFloorDay hourly = .ok pts) :
    ∃ kept : List HourlyBucket,
      pts = cumulate (mergeBaseSum store nowFloorDay) kept := by
  unfold insert_statistics at hok
  cases hlast : store.getLast? with
  | none =>
    have hbase : mergeBaseSum store nowFloorDay = 0 := by
      unfold mergeBaseSum; rw [hlast]
    rw [hlast] at hok
    by_cases he : hourly.isEmpty
    · simp only [he, if_true] at hok
      exact ⟨[], by rw [hbase, ← Except.ok.inj hok]; rfl⟩
    · simp only [he, if_false] at hok
      exact ⟨hourly, by rw [hbase, ← Except.ok.inj hok]⟩
  | some last =>
    have hbase : mergeBaseSum store nowFloorDay =
        windowBaseSum store (correctionStart last nowFloorDay) := by
      unfold mergeBaseSum; rw [hlast]
    rw [hlast] at hok
    simp only at hok
    by_cases hw : (statsWindow store (correctionStart last nowFloorDay)).isEmpty
    · rw [if_pos hw] at hok
      cases hok
    · rw [if_neg hw] at hok
      by_cases hu : (keptBuckets last nowFloorDay hourly).isEmpty
      · simp only [hu, if_true] at hok
        exact ⟨[], by rw [hbase, ← Except.ok.inj hok]; rfl⟩
      · simp only [hu, if_false] at hok
        exact ⟨keptBuckets last nowFloorDay hourly,
          by rw [hbase, ← Except.ok.inj hok]⟩

lemma insert_statistics_ok_of_last (store : List PersistedPoint)
    (nowFloorDay : Int) (hourly : List HourlyBucket) (last : PersistedPoint)
    (pts : List StatisticData) (hlast : store.getLast? = some last)
    (hok : insert_statistics store nowFloorDay hourly = .ok pts) :
    pts = cumulate (windowBaseSum store (correctionStart last nowFloorDay))
      (keptBuckets last nowFloorDay hourly) := by
  unfold insert_statistics at hok
  rw [hlast] at hok
  simp only at hok
  by_cases hw : (statsWindow store (correctionStart last nowFloorDay)).isEmpty
  · rw [if_pos hw] at hok
    cases hok
  · rw [if_neg hw] at hok
    by_cases hu : (keptBuckets last nowFloorDay hourly).isEmpty
    · simp only [hu, if_true] at hok
      rw [← Except.ok.inj hok, List.isEmpty_iff.mp hu]
      rfl
    · simp only [hu, if_false] at hok
      rw [← Except.ok.inj hok]

/-- C2: with a most recent persisted point `last`, a successful merger run
keeps exactly the hourly buckets strictly after
`correction_start = max(last.start, now.floor(day) - 30 days)` and emits for
the `i`-th kept bucket a point whose `start` is its hour start, whose `state`
is its energy, and whose `sum` is the baseline plus the running energy sum of
kept buckets `0..i`. -/
theorem merger_correction_window (store : List PersistedPoint)
    (nowFloorDay : Int) (hourly : List HourlyBucket) (last : PersistedPoint)
    (pts : List StatisticData) (hlast : store.getLast? = some last)
    (hok : insert_statistics store nowFloorDay hourly = .ok pts) :
    pts = cumulate (windowBaseSum store (correctionStart last nowFloorDay))
      (keptBuckets last nowFloorDay hourly) ∧
    pts.length = (keptBuckets last nowFloorDay hourly).length ∧
    ∀ (i : Nat) (hk : i < (keptBuckets last nowFloorDay hourly).length)
      (hp : i < pts.length),
      (pts.get ⟨i, hp⟩).start =
        ((keptBuckets last nowFloorDay hourly).get ⟨i, hk⟩).timestamp ∧
      (pts.get ⟨i, hp⟩).state =
        ((keptBuckets last nowFloorDay hourly).get ⟨i, hk⟩).energy_kwh ∧
      (pts.get ⟨i, hp⟩).sum =
        windowBaseSum store (correctionStart last nowFloorDay) +
          (((keptBuckets last nowFloorDay hourly).take (i + 1)).map
            (fun b => b.energy_kwh)).sum := by
  have hmain := insert_statistics_ok_of_last store nowFloorDay hourly last pts
    hlast hok
  subst hmain
  refine ⟨rfl, cumulate_length _ _, ?_⟩
  intro i hk hp
  rw [cumulate_get _ _ i hk hp]
  exact ⟨rfl, rfl, rfl⟩

/-- Concrete instantiation of `merger_correction_window`: store with one
point at 0 (sum 50), a bucket one hour later, recent cutoff — the single
emitted point carries the bucket's hour, its energy, and `50 + 2`. -/
theorem merger_correction_window_witness :
    ((cumulate
        (windowBaseSum [⟨0, 2, 50⟩] (correctionStart ⟨0, 2, 50⟩ 0))
        (keptBuckets ⟨0, 2, 50⟩ 0 [⟨3600, 1, 2⟩])).get
      ⟨0, by simp [keptBuckets, correctionStart, cumulate]⟩).sum =
      windowBaseSum [⟨0, 2, 50⟩] (correctionStart ⟨0, 2, 50⟩ 0) +
        (((keptBuckets ⟨0, 2, 50⟩ 0 [⟨3600, 1, 2⟩]).take 1).map
          (fun b => b.energy_kwh)).sum := by
  have h := merger_correction_window [⟨0, 2, 50⟩] 0 [⟨3600, 1, 2⟩] ⟨0, 2, 50⟩
    (cumulate (windowBaseSum [⟨0, 2, 50⟩] (correctionStart ⟨0, 2, 50⟩ 0))
      (keptBuckets ⟨0, 2, 50⟩ 0 [⟨3600, 1, 2⟩]))
    rfl rfl
  exact (h.2.2 0 (by simp [keptBuckets, correctionStart])
    (by simp [keptBuckets, correctionStart, cumulate])).2.2

/-- C2 counterexample: with the most recent persisted point (start 0) older
than the 30-day cutoff and a new bucket strictly after the correction start,
the kept-bucket sequence is non-empty, yet the merger emits no point for it —
it fails with the window-query `KeyError` before filtering. -/
theorem merger_correction_window_counterexample :
    keptBuckets ⟨0, 1, 100⟩ (40 * 86400) [⟨36 * 86400, 1, 2⟩] ≠ [] ∧
    insert_statistics [⟨0, 1, 100⟩] (40 * 86400) [⟨36 * 86400, 1, 2⟩] =
      .error .keyError := by
  refine ⟨?_, rfl⟩
  intro h
  cases h

/-- C6: on every successful merger run the emitted sums satisfy the
recurrence `sum[i] = sum[i-1] + state[i]` with
`sum[0] = baseline + state[0]`, and they are non-decreasing whenever every
emitted state is non-negative. -/
theorem merger_cumulative_monotonicity (store : List PersistedPoint)
    (nowFloorDay : Int) (hourly : List HourlyBucket)
    (pts : List StatisticData)
    (hok : insert_statistics store nowFloorDay hourly = .ok pts) :
    (∀ (i : Nat) (h1 : i + 1 < pts.length) (h0 : i < pts.length),
      (pts.get ⟨i + 1, h1⟩).sum =
        (pts.get ⟨i, h0⟩).sum + (pts.get ⟨i + 1, h1⟩).state) ∧
    (∀ h0 : 0 < pts.length,
      (pts.get ⟨0, h0⟩).sum =
        mergeBaseSum store nowFloorDay + (pts.get ⟨0, h0⟩).state) ∧
    ((∀ p ∈ pts, 0 ≤ p.state) →
      ∀ (i : Nat) (h1 : i + 1 < pts.length) (h0 : i < pts.length),
        (pts.get ⟨i, h0⟩).sum ≤ (pts.get ⟨i + 1, h1⟩).sum) := by
  obtain ⟨kept, hpts⟩ :=
    insert_statistics_ok_shape store nowFloorDay hourly pts hok
  subst hpts
  have hrec := cumulate_sum_recurrence (mergeBaseSum store nowFloorDay) kept
  refine ⟨hrec, ?_, ?_⟩
  · intro h0
    exact cumulate_sum_zero _ _ h0
  · intro hpos i h1 h0
    rw [hrec i h1 h0]
    have hmem := List.get_mem (cumulate (mergeBaseSum store nowFloorDay) kept)
      (i + 1) h1
    exact le_add_of_nonneg_right (hpos _ hmem)

/-- Concrete instantiation of `merger_cumulative_monotonicity`: a first run
over two buckets; the second emitted sum equals the first plus the second
state. -/
theorem merger_cumulative_monotonicity_witness :
    ((cumulate 0 [⟨0, 1, 2⟩, ⟨3600, 1, 3⟩]).get ⟨1, by simp [cumulate]⟩).sum =
      ((cumulate 0 [⟨0, 1, 2⟩, ⟨3600, 1, 3⟩]).get ⟨0, by simp [cumulate]⟩).sum +
        ((cumulate 0 [⟨0, 1, 2⟩, ⟨3600, 1, 3⟩]).get ⟨1, by simp [cumulate]⟩).state := by
  exact (merger_cumulative_monotonicity [] 0 [⟨0, 1, 2⟩, ⟨3600, 1, 3⟩]
    (cumulate 0 [⟨0, 1, 2⟩, ⟨3600, 1, 3⟩]) rfl).1 0
    (by simp [cumulate]) (by simp [cumulate])

/-- C3 evaluation: with a persisted series whose most recent point (start 0,
sum 100) is older than the 30-day cutoff, the window query
`statistics_during_period(correction_start, None)` returns nothing — the code
then crashes on the eager `LOGGER.debug` dictionary access instead of
proceeding with the baseline sum of the last point at or before
`correction_start` (which is 100). -/
theorem merger_stale_store_key_error :
    insert_statistics [⟨0, 1, 100⟩] (40 * 86400) [⟨35 * 86400, 1, 2⟩] =
      .error .keyError := rfl

/-- C5 counterexample: a second run with identical hourly input whose newest
hour equals the last persisted point, but with that point older than the
30-day cutoff.  The filtered bucket sequence is empty, yet the merger does
not return successfully with zero points — it raises the window-query
`KeyError`. -/
theorem merger_rerun_counterexample :
    keptBuckets ⟨0, 2, 50⟩ (40 * 86400) [⟨0, 1, 2⟩] = [] ∧
    insert_statistics [⟨0, 2, 50⟩] (40 * 86400) [⟨0, 1, 2⟩] =
      .error .keyError := ⟨rfl, rfl⟩

/-- C5 amended: when the last persisted point is within the 30-day window
(`now.floor(day) - 30 days ≤ last.start`) and no hourly bucket is newer than
it — in particular on a re-run whose input's newest hour is the last
persisted point — the merger filters away every bucket and returns
successfully with zero emitted points, leaving the persisted series
unchanged; a last point older than the cutoff instead fails with the window
`KeyError` (emitting nothing either way). -/
theorem merger_rerun_emits_nothing (store : List PersistedPoint)
    (nowFloorDay : Int) (hourly : List HourlyBucket) (last : PersistedPoint)
    (hlast : store.getLast? = some last)
    (hrecent : nowFloorDay - 30 * 86400 ≤ last.start)
    (hnothingNew : ∀ b ∈ hourly, b.timestamp ≤ last.start) :
    insert_statistics store nowFloorDay hourly = .ok [] := by
  have hcs : correctionStart last nowFloorDay = last.start :=
    max_eq_left hrecent
  have hmem : last ∈ store := by
    rcases List.mem_getLast?_eq_getLast (Option.mem_def.mpr hlast) with ⟨h, heq⟩
    rw [heq]
    exact List.getLast_mem h
  have hwin : (statsWindow store (correctionStart last nowFloorDay)).isEmpty = false := by
    have hin : last ∈ statsWindow store (correctionStart last nowFloorDay) := by
      unfold statsWindow
      refine List.mem_filter.mpr ⟨hmem, ?_⟩
      rw [hcs]
      simp
    have hne : statsWindow store (correctionStart last nowFloorDay) ≠ [] :=
      List.ne_nil_of_mem hin
    simpa using hne
  have hkept : keptBuckets last nowFloorDay hourly = [] := by
    unfold keptBuckets
    apply List.filter_eq_nil_iff.mpr
    intro b hb
    rw [hcs]
    simpa using not_lt.mpr (hnothingNew b hb)
  unfold insert_statistics
  rw [hlast]
  simp only [hwin, Bool.false_eq_true, if_false, hkept]
  rfl

/-- Concrete instantiation of `merger_rerun_emits_nothing`: re-running with
the same single bucket already persisted as the last point yields a
successful no-op. -/
theorem merger_rerun_emits_nothing_witness :
    insert_statistics [⟨0, 2, 50⟩] 0 [⟨0, 1, 2⟩] = .ok [] :=
  merger_rerun_emits_nothing [⟨0, 2, 50⟩] 0 [⟨0, 1, 2⟩] ⟨0, 2, 50⟩ rfl
    (by norm_num) (by intro b hb; simp at hb; subst hb; exact le_rfl)

/-! ### The DST resolver (`DominionDataProcessor._handle_dst`)

A timezone is modelled by its offset history, as in the tz database backing
`zoneinfo`: a base offset and a list of `(utcStart, offsetAfter)` transitions
(offsets in seconds, piecewise constant in UTC time).  The wall-clock reading
of an instant `t` is `t + offsetAt t`.  `replace_time_zone(tz,
ambiguous="earliest", non_existent="null")` maps a naive wall-clock value to
the earliest instant whose wall-clock reading equals it, or to null when no
such instant exists; the subsequent `filter(is_not_null)` drops the null
rows. -/

/-- Offset history of a timezone. -/
structure Timezone where
  baseOffset : Int
  transitions : List (Int × Int)
deriving DecidableEq, Repr

/-- The UTC offset in force at instant `t` (the last transition at or before
`t`, or the base offset). -/
def offsetAt (tz : Timezone) (t : Int) : Int :=
  tz.transitions.foldl (fun acc tr => if tr.1 ≤ t then tr.2 else acc) tz.baseOffset

/-- The wall-clock (naive local) reading of instant `t`. -/
def localAt (tz : Timezone) (t : Int) : Int := t + offsetAt tz t

/-- Every offset the timezone ever uses. -/
def candidateOffsets (tz : Timezone) : List Int :=
  tz.baseOffset :: tz.transitions.map (fun tr => tr.2)

/-- All instants whose wall-clock reading is `naive`, ascending: two for an
ambiguous (fall-back) time, none for a non-existent (spring-forward) time. -/
def candidates (tz : Timezone) (naive : Int) : List Int :=
  List.insertionSort (· ≤ ·)
    ((((candidateOffsets tz).map (fun o => naive - o)).filter
      (fun t => localAt tz t == naive)).dedup)

/-- One naive timestamp through `replace_time_zone(..., ambiguous="earliest",
non_existent="null")`. -/
def resolveLocal (tz : Timezone) (naive : Int) : Option Int :=
  (candidates tz naive).head?

/-- A row of the joined naive long table fed to `_handle_dst`. -/
structure NaiveJoinedRow where
  timestamp : Int
  power_kw : Rat
  energy_kwh : Rat
deriving DecidableEq, Repr

/-- A row of the resolved (timezone-aware) output. -/
structure LocalizedReading where
  timestamp : Int
  power_kw : Rat
  energy_kwh : Rat
deriving DecidableEq, Repr

/-- `DominionDataProcessor._handle_dst`: replace each timestamp by its
resolved instant (null on a spring-forward gap) and keep the non-null
rows. -/
def handle_dst (tz : Timezone) (rows : List NaiveJoinedRow) :
    List LocalizedReading :=
  rows.filterMap (fun r =>
    (resolveLocal tz r.timestamp).map (fun t => ⟨t, r.power_kw, r.energy_kwh⟩))

lemma offsetAt_mem_candidateOffsets (tz : Timezone) (t : Int) :
    offsetAt tz t ∈ candidateOffsets tz := by
  have key : ∀ (l : List (Int × Int)) (acc : Int),
      l.foldl (fun a tr => if tr.1 ≤ t then tr.2 else a) acc = acc ∨
        l.foldl (fun a tr => if tr.1 ≤ t then tr.2 else a) acc ∈
          l.map (fun tr => tr.2) := by
    intro l
    induction l with
    | nil => intro acc; exact Or.inl rfl
    | cons tr rest ih =>
      intro acc
      simp only [List.foldl_cons, List.map_cons]
      by_cases hc : tr.1 ≤ t
      · rw [if_pos hc]
        rcases ih tr.2 with h | h
        · rw [h]
          exact Or.inr (List.mem_cons_self _ _)
        · exact Or.inr (List.mem_cons_of_mem _ h)
      · rw [if_neg hc]
        rcases ih acc with h | h
        · exact Or.inl h
        · exact Or.inr (List.mem_cons_of_mem _ h)
  unfold offsetAt candidateOffsets
  rcases key tz.transitions tz.baseOffset with h | h
  · rw [h]
    exact List.mem_cons_self _ _
  · exact List.mem_cons_of_mem _ h

/-- `candidates` is exactly the set of instants reading `naive` on the
wall clock. -/
lemma mem_candidates_iff (tz : Timezone) (naive t : Int) :
    t ∈ candidates tz naive ↔ localAt tz t = naive := by
  unfold candidates
  rw [(List.perm_insertionSort (· ≤ ·) _).mem_iff, List.mem_dedup,
    List.mem_filter]
  constructor
  · intro ⟨_, hloc⟩
    exact of_decide_eq_true (by simpa using hloc)
  · intro hloc
    refine ⟨?_, by simpa using hloc⟩
    refine List.mem_map.mpr ⟨offsetAt tz t, offsetAt_mem_candidateOffsets tz t, ?_⟩
    unfold localAt at hloc
    omega

lemma candidates_sorted (tz : Timezone) (naive : Int) :
    List.Sorted (· ≤ ·) (candidates tz naive) :=
  List.sorted_insertionSort (· ≤ ·) _

lemma head?_mem {α : Type} {l : List α} {a : α} (h : l.head? = some a) :
    a ∈ l := by
  cases l with
  | nil => cases h
  | cons b rest =>
    rw [List.head?_cons, Option.some.injEq] at h
    exact h ▸ List.mem_cons_self _ _

lemma resolveLocal_localAt (tz : Timezone) {naive t : Int}
    (h : resolveLocal tz naive = some t) : localAt tz t = naive :=
  (mem_candidates_iff tz naive t).mp (head?_mem h)

/-- Resolution is injective where defined: an instant has one wall-clock
reading, so distinct naive timestamps never resolve to the same instant. -/
lemma resolveLocal_inj (tz : Timezone) {n1 n2 t : Int}
    (h1 : resolveLocal tz n1 = some t) (h2 : resolveLocal tz n2 = some t) :
    n1 = n2 := by
  rw [← resolveLocal_localAt tz h1, ← resolveLocal_localAt tz h2]

lemma length_filterMap_eq_length_filter {α β : Type} (f : α → Option β) :
    ∀ l : List α, (l.filterMap f).length =
      (l.filter (fun a => (f a).isSome)).length := by
  intro l
  induction l with
  | nil => rfl
  | cons a rest ih =>
    rw [List.filterMap_cons, List.filter_cons]
    cases hf : f a with
    | none => simpa [hf] using ih
    | some b => simpa [hf] using ih

/-- C4: DST resolution (a) treats `candidates` as exactly the instants whose
wall clock reads the given naive time, (b) resolves an ambiguous time (two
candidate instants) to the earlier one, (c) drops exactly the rows whose
wall-clock time matches no instant, (d) every emitted row carries a genuine
instant whose wall-clock reading is the row's original naive timestamp, with
the metric values untouched, (e) the output rows are precisely the resolved
images of the input rows whose wall-clock time exists (so no gap reading is
substituted or shifted into the output, and every resolvable reading does
appear), and (f) a reading with a non-existent wall-clock time contributes
nothing: removing it from the input leaves the output unchanged. -/
theorem dst_resolution_policy (tz : Timezone) (rows : List NaiveJoinedRow) :
    (∀ naive t : Int, t ∈ candidates tz naive ↔ localAt tz t = naive) ∧
    (∀ naive t1 t2 : Int, candidates tz naive = [t1, t2] →
      resolveLocal tz naive = some (min t1 t2)) ∧
    ((handle_dst tz rows).length =
      (rows.filter (fun r => !(candidates tz r.timestamp).isEmpty)).length) ∧
    (∀ l ∈ handle_dst tz rows, ∃ r ∈ rows,
      localAt tz l.timestamp = r.timestamp ∧
      resolveLocal tz r.timestamp = some l.timestamp ∧
      l.power_kw = r.power_kw ∧ l.energy_kwh = r.energy_kwh) ∧
    (∀ l : LocalizedReading, l ∈ handle_dst tz rows ↔ ∃ r ∈ rows,
      resolveLocal tz r.timestamp = some l.timestamp ∧
      l.power_kw = r.power_kw ∧ l.energy_kwh = r.energy_kwh) ∧
    (∀ (r : NaiveJoinedRow) (rest : List NaiveJoinedRow),
      candidates tz r.timestamp = [] →
      handle_dst tz (r :: rest) = handle_dst tz rest) := by
  refine ⟨mem_candidates_iff tz, ?_, ?_, ?_, ?_, ?_⟩
  · intro naive t1 t2 hc
    have hsorted := candidates_sorted tz naive
    rw [hc] at hsorted
    have h12 : t1 ≤ t2 := by
      have := List.pairwise_cons.mp hsorted
      exact this.1 t2 (List.mem_cons_self _ _)
    unfold resolveLocal
    rw [hc, List.head?_cons, min_eq_left h12]
  · unfold handle_dst
    rw [length_filterMap_eq_length_filter]
    congr 1
    apply List.filter_congr
    intro r _
    unfold resolveLocal
    cases hcs : candidates tz r.timestamp with
    | nil => simp
    | cons a rest => simp
  · intro l hl
    unfold handle_dst at hl
    rcases List.mem_filterMap.mp hl with ⟨r, hr, hres⟩
    rcases Option.map_eq_some'.mp hres with ⟨t, hrt, hlt⟩
    refine ⟨r, hr, ?_, ?_, ?_, ?_⟩
    · rw [← hlt]
      exact resolveLocal_localAt tz hrt
    · rw [← hlt]
      exact hrt
    · rw [← hlt]
    · rw [← hlt]
  · intro l
    constructor
    · intro hl
      unfold handle_dst at hl
      rcases List.mem_filterMap.mp hl with ⟨r, hr, hres⟩
      rcases Option.map_eq_some'.mp hres with ⟨t, hrt, hlt⟩
      subst hlt
      exact ⟨r, hr, hrt, rfl, rfl⟩
    · intro ⟨r, hr, hres, hpv, hev⟩
      unfold handle_dst
      refine List.mem_filterMap.mpr ⟨r, hr, ?_⟩
      cases l with
      | mk ts pk ek =>
        simp only at hres hpv hev
        rw [hres, Option.map_some', hpv, hev]
  · intro r rest hc
    unfold handle_dst
    apply List.filterMap_cons_none
    show Option.map _ (resolveLocal tz r.timestamp) = none
    unfold resolveLocal
    rw [hc]
    rfl

/-- Concrete instantiation of `dst_resolution_policy`: a fall-back timezone
(offset drops by 100 at instant 1000) makes naive time 950 ambiguous between
instants 950 and 1050 and resolves it to the earlier one; a spring-forward
timezone (offset jumps by 100 at instant 1000) gives naive time 1050 no
candidate instant, and the row carrying it is dropped wholesale. -/
theorem dst_resolution_policy_witness :
    resolveLocal ⟨0, [(1000, -100)]⟩ 950 = some (min 950 1050) ∧
    (handle_dst ⟨0, [(1000, 100)]⟩ [⟨1050, 1, 2⟩]).length =
      (([⟨1050, 1, 2⟩] : List NaiveJoinedRow).filter
        (fun r => !(candidates ⟨0, [(1000, 100)]⟩ r.timestamp).isEmpty)).length ∧
    handle_dst ⟨0, [(1000, 100)]⟩ [⟨1050, 1, 2⟩] =
      handle_dst ⟨0, [(1000, 100)]⟩ ([] : List NaiveJoinedRow) := by
  refine ⟨?_, ?_, ?_⟩
  · exact (dst_resolution_policy ⟨0, [(1000, -100)]⟩ []).2.1 950 950 1050 (by decide)
  · exact (dst_resolution_policy ⟨0, [(1000, 100)]⟩ [⟨1050, 1, 2⟩]).2.2.1
  · exact (dst_resolution_policy ⟨0, [(1000, 100)]⟩ []).2.2.2.2.2
      ⟨1050, 1, 2⟩ [] (by decide)

/-! ### C9: joining before vs after DST resolution

`process_for_entities` joins the two naive long tables on `timestamp` and
then DST-resolves the joined table; the spec's ordering resolves each table
first and joins the aware tables.  Both are embedded and shown to produce
the same set of rows. -/

/-- A row of a single-metric long table (naive timestamps), as produced by
`_transform_to_long_format`. -/
structure MetricRow where
  timestamp : Int
  value : Rat
deriving DecidableEq, Repr

/-- A row of a single-metric table after DST resolution. -/
structure AwareMetricRow where
  timestamp : Int
  value : Rat
deriving DecidableEq, Repr

/-- The inner join on naive `timestamp` of `process_for_entities`
(`power_long.join(energy_long, on="timestamp", how="inner")`). -/
def innerJoinNaive (power energy : List MetricRow) : List NaiveJoinedRow :=
  power.flatMap (fun p =>
    (energy.filter (fun e => e.timestamp == p.timestamp)).map
      (fun e => ⟨p.timestamp, p.value, e.value⟩))

/-- The join-then-resolve pipeline implemented by `process_for_entities`
(given the two long tables). -/
def process_for_entities_join (tz : Timezone) (power energy : List MetricRow) :
    List LocalizedReading :=
  handle_dst tz (innerJoinNaive power energy)

/-- Modelled from the spec's ordering (§4.4–4.5): DST-resolve one
single-metric table. -/
def specResolveMetric (tz : Timezone) (rows : List MetricRow) :
    List AwareMetricRow :=
  rows.filterMap (fun r =>
    (resolveLocal tz r.timestamp).map (fun t => ⟨t, r.value⟩))

/-- Modelled from the spec's ordering: inner-join two resolved tables on
their timezone-aware timestamps. -/
def specJoinAware (power energy : List AwareMetricRow) :
    List LocalizedReading :=
  power.flatMap (fun p =>
    (energy.filter (fun e => e.timestamp == p.timestamp)).map
      (fun e => ⟨p.timestamp, p.value, e.value⟩))

/-- The resolve-then-join pipeline in the spec's component order. -/
def spec_pipeline (tz : Timezone) (power energy : List MetricRow) :
    List LocalizedReading :=
  specJoinAware (specResolveMetric tz power) (specResolveMetric tz energy)

lemma mem_innerJoinNaive (power energy : List MetricRow)
    (j : NaiveJoinedRow) :
    j ∈ innerJoinNaive power energy ↔
      ∃ p ∈ power, ∃ e ∈ energy, e.timestamp = p.timestamp ∧
        j = ⟨p.timestamp, p.value, e.value⟩ := by
  unfold innerJoinNaive
  rw [List.mem_flatMap]
  constructor
  · intro ⟨p, hp, hj⟩
    rcases List.mem_map.mp hj with ⟨e, he, hje⟩
    rcases List.mem_filter.mp he with ⟨hee, hts⟩
    exact ⟨p, hp, e, hee, by simpa using hts, hje.symm⟩
  · intro ⟨p, hp, e, he, hts, hj⟩
    refine ⟨p, hp, List.mem_map.mpr ⟨e, List.mem_filter.mpr ⟨he, by simpa using hts⟩, hj.symm⟩⟩

lemma mem_specResolveMetric (tz : Timezone) (rows : List MetricRow)
    (a : AwareMetricRow) :
    a ∈ specResolveMetric tz rows ↔
      ∃ r ∈ rows, resolveLocal tz r.timestamp = some a.timestamp ∧
        a.value = r.value := by
  unfold specResolveMetric
  rw [List.mem_filterMap]
  constructor
  · intro ⟨r, hr, hres⟩
    rcases Option.map_eq_some'.mp hres with ⟨t, hrt, hta⟩
    subst hta
    exact ⟨r, hr, hrt, rfl⟩
  · intro ⟨r, hr, hres, hval⟩
    refine ⟨r, hr, ?_⟩
    cases a with
    | mk ts v =>
      simp only at hres hval
      rw [hres, Option.map_some', hval]

/-- Membership characterization of the implemented pipeline. -/
lemma mem_process_for_entities_join (tz : Timezone)
    (power energy : List MetricRow) (l : LocalizedReading) :
    l ∈ process_for_entities_join tz power energy ↔
      ∃ p ∈ power, ∃ e ∈ energy, e.timestamp = p.timestamp ∧
        resolveLocal tz p.timestamp = some l.timestamp ∧
        l.power_kw = p.value ∧ l.energy_kwh = e.value := by
  unfold process_for_entities_join handle_dst
  rw [List.mem_filterMap]
  constructor
  · intro ⟨j, hj, hres⟩
    rcases Option.map_eq_some'.mp hres with ⟨t, hjt, htl⟩
    rcases (mem_innerJoinNaive power energy j).mp hj with ⟨p, hp, e, he, hts, hje⟩
    subst hje
    subst htl
    exact ⟨p, hp, e, he, hts, hjt, rfl, rfl⟩
  · intro ⟨p, hp, e, he, hts, hres, hpv, hev⟩
    refine ⟨⟨p.timestamp, p.value, e.value⟩,
      (mem_innerJoinNaive power energy _).mpr ⟨p, hp, e, he, hts, rfl⟩, ?_⟩
    cases l with
    | mk ts pk ek =>
      simp only at hres hpv hev
      dsimp only
      rw [hres, Option.map_some', hpv, hev]

/-- Membership characterization of the spec-ordered pipeline. -/
lemma mem_spec_pipeline (tz : Timezone) (power energy : List MetricRow)
    (l : LocalizedReading) :
    l ∈ spec_pipeline tz power energy ↔
      ∃ p ∈ power, ∃ e ∈ energy,
        resolveLocal tz p.timestamp = some l.timestamp ∧
        resolveLocal tz e.timestamp = some l.timestamp ∧
        l.power_kw = p.value ∧ l.energy_kwh = e.value := by
  unfold spec_pipeline specJoinAware
  rw [List.mem_flatMap]
  constructor
  · intro ⟨ap, hap, hl⟩
    rcases List.mem_map.mp hl with ⟨ae, hae, hle⟩
    rcases List.mem_filter.mp hae with ⟨haee, htseq⟩
    have htseq2 : ae.timestamp = ap.timestamp := by simpa using htseq
    rcases (mem_specResolveMetric tz power ap).mp hap with ⟨p, hp, hpres, hpval⟩
    rcases (mem_specResolveMetric tz energy ae).mp haee with ⟨e, he, heres, heval⟩
    have hlts : l.timestamp = ap.timestamp := by rw [← hle]
    refine ⟨p, hp, e, he, ?_, ?_, ?_, ?_⟩
    · rw [hlts]; exact hpres
    · rw [hlts, ← htseq2]; exact heres
    · rw [← hle, hpval]
    · rw [← hle, heval]
  · intro ⟨p, hp, e, he, hpres, heres, hpv, hev⟩
    refine ⟨⟨l.timestamp, p.value⟩,
      (mem_specResolveMetric tz power _).mpr ⟨p, hp, hpres, rfl⟩, ?_⟩
    refine List.mem_map.mpr ⟨⟨l.timestamp, e.value⟩,
      List.mem_filter.mpr
        ⟨(mem_specResolveMetric tz energy _).mpr ⟨e, he, heres, rfl⟩, by simp⟩, ?_⟩
    cases l
    simp_all

/-- C9: the implemented pipeline (inner join on naive timestamps, then DST
resolution of the joined table) produces the same set of rows as the spec's
ordering (resolve each table, then join on aware timestamps), and in both
every emitted row carries both metrics for one instant: it descends from a
power row and an energy row with the same naive timestamp, resolved to the
row's timezone-aware timestamp. -/
theorem join_then_resolve_eq_resolve_then_join (tz : Timezone)
    (power energy : List MetricRow) :
    (∀ l : LocalizedReading,
      l ∈ process_for_entities_join tz power energy ↔
        l ∈ spec_pipeline tz power energy) ∧
    (∀ l ∈ process_for_entities_join tz power energy,
      ∃ p ∈ power, ∃ e ∈ energy, e.timestamp = p.timestamp ∧
        resolveLocal tz p.timestamp = some l.timestamp ∧
        l.power_kw = p.value ∧ l.energy_kwh = e.value) := by
  constructor
  · intro l
    rw [mem_process_for_entities_join, mem_spec_pipeline]
    constructor
    · intro ⟨p, hp, e, he, hts, hres, hpv, hev⟩
      exact ⟨p, hp, e, he, hres, by rw [hts]; exact hres, hpv, hev⟩
    · intro ⟨p, hp, e, he, hpres, heres, hpv, hev⟩
      exact ⟨p, hp, e, he, resolveLocal_inj tz heres hpres, hpres, hpv, hev⟩
  · intro l hl
    exact (mem_process_for_entities_join tz power energy l).mp hl

/-- Concrete instantiation of `join_then_resolve_eq_resolve_then_join`: a
matched power/energy pair at naive time 100 under the trivial timezone
appears in the implemented pipeline, hence in the spec-ordered pipeline. -/
theorem join_then_resolve_eq_resolve_then_join_witness :
    (⟨100, 3, 4⟩ : LocalizedReading) ∈
      spec_pipeline ⟨0, []⟩ [⟨100, 3⟩] [⟨100, 4⟩] := by
  have h := (join_then_resolve_eq_resolve_then_join ⟨0, []⟩
    [⟨100, 3⟩] [⟨100, 4⟩]).1 ⟨100, 3, 4⟩
  apply h.mp
  rw [mem_process_for_entities_join]
  exact ⟨⟨100, 3⟩, List.mem_singleton.mpr rfl, ⟨100, 4⟩,
    List.mem_singleton.mpr rfl, rfl, by decide, rfl, rfl⟩

/-! ### The incompleteness trimmer (`DominionDataProcessor._clean`)

Wide tables are a list of time-of-day column labels (as character lists) and
one row per day carrying the date and the values aligned with the labels.
`drop_incomplete_dates` finds the maximum date, selects the columns whose
label contains `" PM"` (`cs.contains(" PM")`), horizontally sums that day's
afternoon values and drops the day when the sum is zero.  Its `.item()`
calls require exactly one horizontal sum, hence exactly one row at the
maximum date; on an empty table (or duplicated max date) they raise. -/

/-- `pat` occurs as a contiguous substring. -/
def containsSub (pat : List Char) : List Char → Bool
  | [] => pat.isPrefixOf ([] : List Char)
  | c :: rest => pat.isPrefixOf (c :: rest) || containsSub pat rest

/-- One day of a wide table: the date and the values of the time-of-day
columns, aligned with the label list. -/
structure WideRow where
  date : Int
  values : List Rat
deriving DecidableEq, Repr

/-- The `ValueError` of `.item()` on a frame that is not 1×1. -/
inductive CleanError where
  | itemError
deriving DecidableEq, Repr

/-- `select(cs.contains(" PM")).sum_horizontal()` for one row. -/
def rowPMSum (cols : List (List Char)) (r : WideRow) : Rat :=
  (((cols.zip r.values).filter
    (fun cv => containsSub [' ', 'P', 'M'] cv.1)).map (fun cv => cv.2)).sum

/-- `drop_incomplete_dates` of `DominionDataProcessor._clean`. -/
def drop_incomplete_dates (cols : List (List Char)) (rows : List WideRow) :
    Except CleanError (List WideRow) :=
  match (rows.map (fun r => r.date)).max? with
  | none => .error .itemError
  | some latest =>
      match rows.filter (fun r => r.date == latest) with
      | [r] =>
          if rowPMSum cols r = 0 then
            .ok (rows.filter (fun x => x.date != latest))
          else
            .ok rows
      | _ => .error .itemError

lemma drop_incomplete_dates_single (cols : List (List Char))
    (rows : List WideRow) (latest : Int) (r : WideRow)
    (hmax : (rows.map (fun x => x.date)).max? = some latest)
    (hfilter : rows.filter (fun x => x.date == latest) = [r]) :
    drop_incomplete_dates cols rows =
      if rowPMSum cols r = 0 then
        .ok (rows.filter (fun x => x.date != latest))
      else
        .ok rows := by
  unfold drop_incomplete_dates
  rw [hmax]
  dsimp only
  rw [hfilter]

/-- C7 amended: the trimmer drops the unique maximum-date row exactly when
the horizontal sum of its `" PM"` columns is zero — even when individual
afternoon values are non-zero but cancel — keeps the whole table when that
sum is non-zero, leaves all other rows unchanged, and on a table with zero
rows raises the `.item()` error instead of being a no-op. -/
theorem trimmer_behavior (cols : List (List Char)) (rows : List WideRow) :
    (rows = [] → drop_incomplete_dates cols rows = .error .itemError) ∧
    ∀ (latest : Int) (r : WideRow),
      (rows.map (fun x => x.date)).max? = some latest →
      rows.filter (fun x => x.date == latest) = [r] →
      (rowPMSum cols r = 0 →
        drop_incomplete_dates cols rows =
          .ok (rows.filter (fun x => x.date != latest))) ∧
      (rowPMSum cols r ≠ 0 →
        drop_incomplete_dates cols rows = .ok rows) := by
  constructor
  · intro hnil
    subst hnil
    rfl
  · intro latest r hmax hfilter
    have hred := drop_incomplete_dates_single cols rows latest r hmax hfilter
    constructor
    · intro hzero
      rw [hred, if_pos hzero]
    · intro hnz
      rw [hred, if_neg hnz]

/-- Concrete instantiation of `trimmer_behavior`: a single-day table whose
sole `" PM"` column holds 5 is kept unchanged. -/
theorem trimmer_behavior_witness :
    drop_incomplete_dates [['1', ':', '0', '0', ' ', 'P', 'M']] [⟨0, [5]⟩] =
      .ok [⟨0, [5]⟩] := by
  have h := (trimmer_behavior [['1', ':', '0', '0', ' ', 'P', 'M']]
    [⟨0, [5]⟩]).2 0 ⟨0, [5]⟩ rfl rfl
  apply h.2
  have hval : rowPMSum [['1', ':', '0', '0', ' ', 'P', 'M']] ⟨0, [5]⟩ =
      (5 : Rat) + 0 := rfl
  rw [hval]
  norm_num

/-- C7 counterexample: the trimmer is not a no-op on an empty table (it
raises the `.item()` error), and a latest day whose afternoon values are
non-zero but cancel (`1` and `-1`) is dropped even though the claim says any
non-zero afternoon value keeps it. -/
theorem trimmer_counterexample :
    drop_incomplete_dates [['1', ':', '0', '0', ' ', 'P', 'M']] [] =
      .error .itemError ∧
    drop_incomplete_dates
      [['1', ':', '0', '0', ' ', 'P', 'M'], ['1', ':', '3', '0', ' ', 'P', 'M']]
      [⟨0, [1, -1]⟩] = .ok [] := by
  constructor
  · rfl
  · have hred := drop_incomplete_dates_single
      [['1', ':', '0', '0', ' ', 'P', 'M'], ['1', ':', '3', '0', ' ', 'P', 'M']]
      [⟨0, [1, -1]⟩] 0 ⟨0, [1, -1]⟩ rfl rfl
    have hzero : rowPMSum
        [['1', ':', '0', '0', ' ', 'P', 'M'], ['1', ':', '3', '0', ' ', 'P', 'M']]
        ⟨0, [1, -1]⟩ = (1 : Rat) + (-1 + 0) := rfl
    rw [hred, if_pos (by rw [hzero]; norm_num)]
    rfl

/-! ### The long-format reshaper (`DominionDataProcessor._transform_to_long_format`)

`unpivot(index=["Date"], on=time_cols)` with `time_cols` the columns whose
label contains `"AM"` or `"PM"`; polars treats an empty `on` as "all columns
not in the index".  Each unpivoted cell's label goes through
`str.extract(r"(\d+:\d+ [AP]M)")` (null when nothing matches), the date and
extracted time are concatenated and parsed by a strict
`strptime("%Y-%m-%d %I:%M %p")`: null inputs pass through as null
timestamps, while a non-null time string that is not a valid 12-hour time
(hour outside 1–12, minute outside 0–59, or an over-wide digit run) raises.
Finally the long table is sorted by timestamp, nulls first. -/

/-- Read a leading digit run: accumulated value, digit count, rest. -/
def readDigits (v n : Nat) : List Char → Nat × Nat × List Char
  | [] => (v, n, [])
  | c :: cs =>
      if c.isDigit then readDigits (10 * v + (c.toNat - 48)) (n + 1) cs
      else (v, n, c :: cs)

/-- Match `\d+:\d+ [AP]M` anchored at the head: hour value, hour digit
count, minute value, minute digit count, PM flag. -/
def matchTimeAt (s : List Char) : Option (Nat × Nat × Nat × Nat × Bool) :=
  match readDigits 0 0 s with
  | (h, hn, r1) =>
    if hn = 0 then none
    else
      match r1 with
      | ':' :: r2 =>
          (match readDigits 0 0 r2 with
          | (m, mn, r3) =>
            if mn = 0 then none
            else
              match r3 with
              | ' ' :: 'A' :: 'M' :: _ => some (h, hn, m, mn, false)
              | ' ' :: 'P' :: 'M' :: _ => some (h, hn, m, mn, true)
              | _ => none)
      | _ => none

/-- `str.extract(r"(\d+:\d+ [AP]M)")`: leftmost match anywhere in the
label, or null. -/
def extractTime : List Char → Option (Nat × Nat × Nat × Nat × Bool)
  | [] => none
  | c :: cs =>
      match matchTimeAt (c :: cs) with
      | some x => some x
      | none => extractTime cs

/-- Whether the extracted match parses under the strict
`"%I:%M %p"` fields: at most two digits each, hour 1–12, minute 0–59. -/
def validTime (h hn m mn : Nat) : Bool :=
  decide (hn ≤ 2) && decide (mn ≤ 2) && decide (1 ≤ h) && decide (h ≤ 12) &&
    decide (m ≤ 59)

/-- A row of the long table: the parsed timestamp (null when the label had
no extractable time) and the metric value. -/
structure LongRow where
  timestamp : Option Int
  value : Rat
deriving DecidableEq, Repr

/-- The `TransformError` of §7 (the strict `strptime` failure). -/
inductive TransformError where
  | parseError
deriving DecidableEq, Repr

/-- Label contains `"AM"` or `"PM"` (`cs.contains("AM", "PM")`). -/
def amPmLabel (lbl : List Char) : Bool :=
  containsSub ['A', 'M'] lbl || containsSub ['P', 'M'] lbl

/-- The columns `unpivot` melts: the AM/PM-labelled ones, or — as polars
does for an empty `on` — every non-index column. -/
def unpivotCols (cols : List (List Char)) : List (Nat × List Char) :=
  let indexed := cols.enum
  let timeCols := indexed.filter (fun ic => amPmLabel ic.2)
  if timeCols.isEmpty then indexed else timeCols

/-- The unpivoted cells: one `(date, label, value)` triple per melted column
and row. -/
def unpivoted (cols : List (List Char)) (rows : List WideRow) :
    List (Int × List Char × Rat) :=
  (unpivotCols cols).flatMap (fun ic =>
    rows.map (fun r => (r.date, ic.2, r.values.getD ic.1 0)))

/-- Extract-and-parse of one unpivoted cell. -/
def parseCell (date : Int) (lbl : List Char) (v : Rat) :
    Except TransformError LongRow :=
  match extractTime lbl with
  | none => .ok ⟨none, v⟩
  | some (h, hn, m, mn, pm) =>
      if validTime h hn m mn then
        .ok ⟨some (date * 86400 + 3600 * ((h % 12) + (if pm then 12 else 0)) + 60 * m), v⟩
      else
        .error .parseError

/-- Parse all cells; the strict `strptime` raises for the whole column
operation on the first invalid value. -/
def parseCells : List (Int × List Char × Rat) → Except TransformError (List LongRow)
  | [] => .ok []
  | c :: rest =>
      match parseCell c.1 c.2.1 c.2.2 with
      | .error e => .error e
      | .ok row =>
          match parseCells rest with
          | .error e => .error e
          | .ok rows => .ok (row :: rows)

/-- `sort("timestamp")` with polars' default null-first ordering. -/
def longKeyLe (a b : LongRow) : Bool :=
  match a.timestamp, b.timestamp with
  | none, _ => true
  | some _, none => false
  | some x, some y => decide (x ≤ y)

def insertLong (x : LongRow) : List LongRow → List LongRow
  | [] => [x]
  | y :: ys => if longKeyLe x y then x :: y :: ys else y :: insertLong x ys

def sortLong (l : List LongRow) : List LongRow := l.foldr insertLong []

/-- `DominionDataProcessor._transform_to_long_format` on one wide table. -/
def transform_to_long_format (cols : List (List Char)) (rows : List WideRow) :
    Except TransformError (List LongRow) :=
  match parseCells (unpivoted cols rows) with
  | .error e => .error e
  | .ok longRows => .ok (sortLong longRows)

lemma parseCells_error_iff (l : List (Int × List Char × Rat)) :
    (∃ e, parseCells l = .error e) ↔
      ∃ c ∈ l, ∃ e, parseCell c.1 c.2.1 c.2.2 = .error e := by
  induction l with
  | nil =>
    constructor
    · intro ⟨e, he⟩; cases he
    · intro ⟨c, hc, _⟩; cases hc
  | cons c rest ih =>
    constructor
    · intro ⟨e, he⟩
      unfold parseCells at he
      cases hp : parseCell c.1 c.2.1 c.2.2 with
      | error e2 => exact ⟨c, List.mem_cons_self _ _, e2, hp⟩
      | ok row =>
        rw [hp] at he
        cases hrest : parseCells rest with
        | error e3 =>
          rcases ih.mp ⟨e3, hrest⟩ with ⟨c2, hc2, he2⟩
          exact ⟨c2, List.mem_cons_of_mem _ hc2, he2⟩
        | ok rows =>
          rw [hrest] at he
          cases he
    · intro ⟨c2, hc2, e2, he2⟩
      rcases List.mem_cons.mp hc2 with hceq | hcrest
      · subst hceq
        refine ⟨e2, ?_⟩
        unfold parseCells
        rw [he2]
      · unfold parseCells
        cases hp : parseCell c.1 c.2.1 c.2.2 with
        | error e3 => exact ⟨e3, rfl⟩
        | ok row =>
          rcases ih.mpr ⟨c2, hcrest, e2, he2⟩ with ⟨e3, he3⟩
          rw [he3]
          exact ⟨e3, rfl⟩

lemma parseCell_error_iff (date : Int) (lbl : List Char) (v : Rat) :
    (∃ e, parseCell date lbl v = .error e) ↔
      ∃ h hn m mn pm, extractTime lbl = some (h, hn, m, mn, pm) ∧
        validTime h hn m mn = false := by
  cases hx : extractTime lbl with
  | none =>
    have hok : parseCell date lbl v = .ok ⟨none, v⟩ := by
      unfold parseCell
      rw [hx]
    constructor
    · intro ⟨e, he⟩
      rw [hok] at he
      cases he
    · intro ⟨h, hn, m, mn, pm, hsome, _⟩
      cases hsome
  | some x =>
    obtain ⟨h, hn, m, mn, pm⟩ := x
    by_cases hv : validTime h hn m mn = true
    · have hok : parseCell date lbl v =
          .ok ⟨some (date * 86400 + 3600 * ((h % 12) + (if pm then 12 else 0)) + 60 * m), v⟩ := by
        unfold parseCell
        rw [hx]
        dsimp only
        rw [if_pos hv]
      constructor
      · intro ⟨e, he⟩
        rw [hok] at he
        cases he
      · intro ⟨h2, hn2, m2, mn2, pm2, hsome, hbad⟩
        rw [Option.some.injEq] at hsome
        simp only [Prod.mk.injEq] at hsome
        obtain ⟨rfl, rfl, rfl, rfl, rfl⟩ := hsome
        rw [hv] at hbad
        cases hbad
    · have herr : parseCell date lbl v = .error .parseError := by
        unfold parseCell
        rw [hx]
        dsimp only
        rw [if_neg hv]
      constructor
      · intro _
        exact ⟨h, hn, m, mn, pm, rfl, Bool.eq_false_iff.mpr hv⟩
      · intro _
        exact ⟨.parseError, herr⟩

/-- C10 amended: the reshaper fails with a `TransformError` exactly when
some unpivoted cell's label contains a `\d+:\d+ [AP]M` match that the strict
12-hour parse rejects; a label with no such match yields rows with a null
timestamp instead of failing, and when no AM/PM columns exist the remaining
non-`Date` columns are unpivoted the same way, again without failing. -/
theorem reshaper_error_iff (cols : List (List Char)) (rows : List WideRow) :
    (∃ e, transform_to_long_format cols rows = .error e) ↔
      ∃ c ∈ unpivoted cols rows, ∃ h hn m mn pm,
        extractTime c.2.1 = some (h, hn, m, mn, pm) ∧
        validTime h hn m mn = false := by
  have hstep : (∃ e, transform_to_long_format cols rows = .error e) ↔
      ∃ e, parseCells (unpivoted cols rows) = .error e := by
    unfold transform_to_long_format
    cases hp : parseCells (unpivoted cols rows) with
    | error e =>
      constructor
      · intro _; exact ⟨e, rfl⟩
      · intro _; exact ⟨e, rfl⟩
    | ok longRows =>
      constructor
      · intro ⟨e, he⟩; cases he
      · intro ⟨e, he⟩; cases he
  rw [hstep, parseCells_error_iff]
  constructor
  · intro ⟨c, hc, he⟩
    exact ⟨c, hc, (parseCell_error_iff c.1 c.2.1 c.2.2).mp he⟩
  · intro ⟨c, hc, hbad⟩
    exact ⟨c, hc, (parseCell_error_iff c.1 c.2.1 c.2.2).mpr hbad⟩

/-- Concrete instantiation of `reshaper_error_iff`: the label `"13:00 PM"`
matches the time pattern but `13` is no 12-hour hour, so the reshaper
fails. -/
theorem reshaper_error_iff_witness :
    ∃ e, transform_to_long_format
      [['1', '3', ':', '0', '0', ' ', 'P', 'M']] [⟨0, [1]⟩] = .error e := by
  apply (reshaper_error_iff [['1', '3', ':', '0', '0', ' ', 'P', 'M']]
    [⟨0, [1]⟩]).mpr
  refine ⟨(0, ['1', '3', ':', '0', '0', ' ', 'P', 'M'], 1), ?_, 13, 2, 0, 2,
    true, rfl, rfl⟩
  have : unpivoted [['1', '3', ':', '0', '0', ' ', 'P', 'M']] [⟨0, [1]⟩] =
      [(0, ['1', '3', ':', '0', '0', ' ', 'P', 'M'], 1)] := rfl
  rw [this]
  exact List.mem_singleton.mpr rfl

/-- C10 counterexample: a selected label (`"PEAK PM kW"`, which contains
`"PM"`) with no extractable time string yields a null-timestamp row and no
error, and a table whose only non-`Date` column is `"Total"` (no time-of-day
columns at all) is unpivoted without error either — the claim expects a
`TransformError` in both cases. -/
theorem reshaper_counterexample :
    transform_to_long_format
      [['P', 'E', 'A', 'K', ' ', 'P', 'M', ' ', 'k', 'W']] [⟨0, [5]⟩] =
      .ok [⟨none, 5⟩] ∧
    transform_to_long_format [['T', 'o', 't', 'a', 'l']] [⟨0, [3]⟩] =
      .ok [⟨none, 3⟩] := ⟨rfl, rfl⟩

end DominionEnergy
